import Mathlib

/-!
# Verification of the tinyserver HTTP/TCP implementation

A shallow embedding of the Go sources of `ganyariya/tinyserver` into Lean 4,
together with theorems settling the specification claims about the HTTP
message codec (`internal/http`, `pkg/http`) and the TCP connection layer
(`internal/tcp`).

Bytes on the wire are modelled as `List Char` (all inputs relevant to the
claims are ASCII, and Go iterates strings per rune in exactly the places we
model).  Go `map[string][]string` header collections are modelled as
association lists holding insertion order per key; all header operations in
the source are key lookups or per-key appends, which the association list
models exactly.
-/

set_option maxRecDepth 16384

set_option synthInstance.maxSize 1000

instance {ε α : Type} [DecidableEq ε] [DecidableEq α] : DecidableEq (Except ε α) :=
  fun a b =>
    match a, b with
    | .ok x, .ok y =>
      if h : x = y then .isTrue (by rw [h]) else .isFalse (by simp [h])
    | .ok _, .error _ => .isFalse (by simp)
    | .error _, .ok _ => .isFalse (by simp)
    | .error e, .error f =>
      if h : e = f then .isTrue (by rw [h]) else .isFalse (by simp [h])

namespace TinyServer

/-- Error kinds of `internal/common/errors.go` (`ErrorType`). -/
inductive ErrKind where
  | network | protocol | server | client | io | timeout | invalidInput
  deriving DecidableEq, Repr

/-- Go errors as observed by this code base: `io.EOF` or a
`common.TinyServerError` (kind, message, and either no cause — a `nil`
`Cause` field — or a chained cause). -/
inductive GoError where
  | eof : GoError
  | tsError (kind : ErrKind) (message : String) : GoError
  | tsErrorCause (kind : ErrKind) (message : String) (cause : GoError) : GoError
  deriving DecidableEq, Repr

/-- Model of `common.NetworkError` -/
def networkError (msg : String) : GoError := .tsError .network msg

/-- Model of `common.NetworkErrorWithCause` -/
def networkErrorWithCause (msg : String) (cause : GoError) : GoError :=
  .tsErrorCause .network msg cause

/-- Model of `common.ProtocolError` -/
def protocolError (msg : String) : GoError := .tsError .protocol msg

/-- Model of `common.ServerError` -/
def serverError (msg : String) : GoError := .tsError .server msg

/-- Model of `common.HTTPError` (it constructs a `Protocol`-kind error). -/
def httpError (msg : String) : GoError := .tsError .protocol msg

/-! ## Basic string helpers mirroring the Go standard library -/

/-- ASCII whitespace trimmed by `strings.TrimSpace` (the inputs of this
code base are ASCII; the Unicode cases of `unicode.IsSpace` never arise). -/
def isSpaceChar (c : Char) : Bool :=
  c = ' ' || c = '\t' || c = '\n' || c = '\x0b' || c = '\x0c' || c = '\r'

/-- Model of `strings.TrimSpace` on ASCII data. -/
def trimSpace (s : List Char) : List Char :=
  ((s.dropWhile isSpaceChar).reverse.dropWhile isSpaceChar).reverse

def isDigitChar (c : Char) : Bool := '0' ≤ c ∧ c ≤ '9'

/-- Numeric value of a list of decimal digits. -/
def digitsVal (ds : List Char) : Nat :=
  ds.foldl (fun acc c => acc * 10 + (c.toNat - '0'.toNat)) 0

/-- Model of `strconv.ParseInt(s, 10, 64)`: optional sign, then at least one decimal
digit, value within the `int64` range; `none` models a non-nil error. -/
def goParseInt64 (s : List Char) : Option Int :=
  match s with
  | [] => none
  | _ =>
    let (neg, ds) :=
      match s with
      | '-' :: t => (true, t)
      | '+' :: t => (false, t)
      | t => (false, t)
    if ds = [] then none
    else if ds.all isDigitChar then
      let v : Nat := digitsVal ds
      if neg then
        if v ≤ 2 ^ 63 then some (-(v : Int)) else none
      else
        if v ≤ 2 ^ 63 - 1 then some (v : Int) else none
    else none

/-! ## Header collections (`pkg/http` `type Header map[string][]string`) -/

/-- A header collection: association list from name to the ordered
values stored under it. -/
abbrev Header := List (List Char × List (List Char))

/-- Go map read `headers[name]` (missing key reads as `nil`, modelled
`none`). -/
def headerLookup (hs : Header) (name : List Char) : Option (List (List Char)) :=
  (hs.find? (fun e => e.1 = name)).map (·.2)

/-- Model of `headers[name] = append(headers[name], value)`. -/
def headerAdd (hs : Header) (name value : List Char) : Header :=
  if (hs.find? (fun e => e.1 = name)).isSome then
    hs.map (fun e => if e.1 = name then (e.1, e.2 ++ [value]) else e)
  else
    hs ++ [(name, [value])]

/-- Model of `headers[name] = []string{value}` (`SetHeader`). -/
def headerSet (hs : Header) (name value : List Char) : Header :=
  if (hs.find? (fun e => e.1 = name)).isSome then
    hs.map (fun e => if e.1 = name then (e.1, [value]) else e)
  else
    hs ++ [(name, [value])]

/-- Model of `GetHeader` of `pkg/http/request.go` and `pkg/http/response.go`:
first value stored under the (exactly matching) name, `""` otherwise. -/
def getHeader (hs : Header) (name : List Char) : List Char :=
  match headerLookup hs name with
  | none => []
  | some [] => []
  | some (v :: _) => v

/-- Model of `GetHeaders`: the whole value slice (`nil`, i.e. `[]`, when absent). -/
def getHeaders (hs : Header) (name : List Char) : List (List Char) :=
  (headerLookup hs name).getD []

/-- Model of `HasHeader`: Go's two-valued map read `_, exists := headers[name]`. -/
def hasHeader (hs : Header) (name : List Char) : Bool :=
  (headerLookup hs name).isSome

/-- The `HeaderContentLength` constant of `pkg/http`. -/
def headerContentLength : List Char := "Content-Length".toList

/-- Model of `ContentLength()` of `pkg/http/request.go` (and, with identical code,
of `pkg/http/response.go`): first `Content-Length` value parsed with
`strconv.ParseInt(v, 10, 64)`; missing header, empty value slice, or a
parse error all yield `0`. -/
def contentLengthOf (hs : Header) : Int :=
  match headerLookup hs headerContentLength with
  | none => 0
  | some [] => 0
  | some (v :: _) =>
    match goParseInt64 v with
    | none => 0
    | some n => n

/-! ## Error message constants of `internal/http/constants.go` -/

def ErrInvalidRequestLine : String := "invalid HTTP request line"
def ErrInvalidMethod : String := "invalid HTTP method"
def ErrInvalidPath : String := "invalid request path"
def ErrInvalidVersion : String := "invalid HTTP version"
def ErrInvalidHeader : String := "invalid header format"
def ErrRequestTooLarge : String := "request too large"
def ErrHeaderTooLarge : String := "header too large"
def ErrChunkedEncodingInvalid : String := "invalid chunked encoding"
def ErrUnexpectedEOF : String := "unexpected end of input"

/-- Model of `MaxRequestLineLength` -/
def MaxRequestLineLength : Nat := 2048

/-- Model of `MaxHeaderLines` -/
def MaxHeaderLines : Nat := 100

/-- Model of `MaxHeaderLineLength` -/
def MaxHeaderLineLength : Nat := 4096

/-- Model of `MaxChunkSize` (`1 << 16`) -/
def MaxChunkSize : Int := 65536

/-! ## Validation functions of `internal/http/request.go` -/

/-- Model of `isValidMethod`: membership in the closed method set. -/
def isValidMethod (m : List Char) : Bool :=
  m = "GET".toList || m = "POST".toList || m = "PUT".toList ||
  m = "DELETE".toList || m = "HEAD".toList || m = "OPTIONS".toList ||
  m = "PATCH".toList

/-- Model of `isValidPath`: non-empty, starts with `/`, no control characters. -/
def isValidPath (p : List Char) : Bool :=
  match p with
  | [] => false
  | c :: _ =>
    c = '/' && p.all (fun r => !(r.toNat < 32 || r.toNat = 127))

/-- Model of `isValidVersion`: `HTTP/1.0` or `HTTP/1.1`. -/
def isValidVersion (v : List Char) : Bool :=
  v = "HTTP/1.0".toList || v = "HTTP/1.1".toList

/-- Characters `isValidHeaderName` accepts: letters, digits, hyphen. -/
def isHeaderNameChar (r : Char) : Bool :=
  ('a' ≤ r && r ≤ 'z') || ('A' ≤ r && r ≤ 'Z') || ('0' ≤ r && r ≤ '9') || r = '-'

/-- Model of `isValidHeaderName`: non-empty and every character a letter, digit or
hyphen (the first character is not treated specially by the code). -/
def isValidHeaderName (name : List Char) : Bool :=
  match name with
  | [] => false
  | _ => name.all isHeaderNameChar

/-! ## Header-line parsing (`parseHeader`, `parseHeaders`) -/

/-- Is the character different from `:`?  (`strings.Index(line, ":")`
splits the line at the first colon.) -/
def notColon (c : Char) : Bool := c ≠ ':'

/-- Model of `parseHeader` of `internal/http/request.go`: split the line at the
first `:` (none ⇒ `ErrInvalidHeader`), trim both sides, validate the
name. -/
def parseHeader (line : List Char) : Except GoError (List Char × List Char) :=
  let pre := line.takeWhile notColon
  if pre.length = line.length then
    .error (httpError ErrInvalidHeader)
  else
    let name := trimSpace pre
    let value := trimSpace (line.drop (pre.length + 1))
    if isValidHeaderName name then .ok (name, value)
    else .error (httpError ErrInvalidHeader)

/-- The loop of `parseHeaders`: an empty line ends the headers, each
counted line is bounded in number and length, and parsed with
`parseHeader`. -/
def parseHeadersLoop : List (List Char) → Nat → Header → Except GoError Header
  | [], _, hs => .ok hs
  | line :: rest, count, hs =>
    if line = [] then .ok hs
    else if count + 1 > MaxHeaderLines then .error (httpError ErrHeaderTooLarge)
    else if line.length > MaxHeaderLineLength then .error (httpError ErrHeaderTooLarge)
    else
      match parseHeader line with
      | .error e => .error e
      | .ok (name, value) => parseHeadersLoop rest (count + 1) (headerAdd hs name value)

/-- Model of `parseHeaders` applied to the scanned header lines. -/
def parseHeaders (lines : List (List Char)) : Except GoError Header :=
  parseHeadersLoop lines 0 []

/-! ## Line scanning (`bufio.Scanner` with `ScanLines`) -/

/-- Model of `dropCR` of `bufio.ScanLines`: strip one trailing `\r`. -/
def dropCR (l : List Char) : List Char :=
  match l.reverse with
  | [] => l
  | c :: t => if c = '\r' then t.reverse else l

/-- Is the character different from `\n`?  (`bufio` searches for the
newline delimiter.) -/
def notNL (c : Char) : Bool := c ≠ '\n'

/-- The accumulation of `bufio.Scanner` tokens: `acc` holds the current
(reversed) partial line. -/
def scanLinesAux : List Char → List Char → List (List Char)
  | [], acc => [acc.reverse]
  | '\n' :: [], acc => [dropCR acc.reverse]
  | '\n' :: t, acc => dropCR acc.reverse :: scanLinesAux t []
  | c :: t, acc => scanLinesAux t (c :: acc)

/-- Model of `bufio.Scanner` token sequence under `ScanLines`: split at `\n`,
strip one `\r` before each `\n`; a final token without a newline is
produced, a trailing newline produces no empty final token. -/
def scanLines (s : List Char) : List (List Char) :=
  if s = [] then [] else scanLinesAux s []

/-! ## Request line parsing (`parseRequestLine`) -/

/-- Model of `parseRequestLine` of `internal/http/request.go`: empty or oversized
lines are rejected, `strings.SplitN(line, " ", 3)` must yield exactly
three parts (so the line needs at least two spaces; the third part is the
remainder after the second space), and method, path and version are each
validated. -/
def parseRequestLine (line : List Char) :
    Except GoError (List Char × List Char × List Char) :=
  if line = [] then .error (httpError ErrInvalidRequestLine)
  else if line.length > MaxRequestLineLength then .error (httpError ErrRequestTooLarge)
  else
    let p1 := line.takeWhile (fun c => c ≠ ' ')
    match line.dropWhile (fun c => c ≠ ' ') with
    | [] => .error (httpError ErrInvalidRequestLine)
    | _ :: r1 =>
      let p2 := r1.takeWhile (fun c => c ≠ ' ')
      match r1.dropWhile (fun c => c ≠ ' ') with
      | [] => .error (httpError ErrInvalidRequestLine)
      | _ :: p3 =>
        if !isValidMethod p1 then .error (httpError ErrInvalidMethod)
        else if !isValidPath p2 then .error (httpError ErrInvalidPath)
        else if !isValidVersion p3 then .error (httpError ErrInvalidVersion)
        else .ok (p1, p2, p3)

/-! ## Query string parsing (`net/url.ParseQuery` as used by
`HTTPRequest.parseQueryParams`) -/

def isHexDigit (c : Char) : Bool :=
  ('0' ≤ c && c ≤ '9') || ('a' ≤ c && c ≤ 'f') || ('A' ≤ c && c ≤ 'F')

def hexDigitVal (c : Char) : Nat :=
  if '0' ≤ c ∧ c ≤ '9' then c.toNat - '0'.toNat
  else if 'a' ≤ c ∧ c ≤ 'f' then c.toNat - 'a'.toNat + 10
  else c.toNat - 'A'.toNat + 10

/-- Model of `url.QueryUnescape`: `%XX` is decoded, `+` becomes a space, a `%` not
followed by two hex digits is an error (`none`). -/
def queryUnescape : List Char → Option (List Char)
  | [] => some []
  | '%' :: a :: b :: t =>
    if isHexDigit a && isHexDigit b then
      (queryUnescape t).map (fun r => Char.ofNat (16 * hexDigitVal a + hexDigitVal b) :: r)
    else none
  | '%' :: _ => none
  | '+' :: t => (queryUnescape t).map (fun r => ' ' :: r)
  | c :: t => (queryUnescape t).map (fun r => c :: r)

/-- The loop of `url.parseQuery`: segments split at `&`; a segment
containing `;` or failing to unescape sets the error and is skipped. -/
def parseQueryLoop : Nat → List Char → Header → Bool → Header × Bool
  | 0, _, m, errFlag => (m, errFlag)
  | _ + 1, [], m, errFlag => (m, errFlag)
  | fuel + 1, query, m, errFlag =>
    let seg := query.takeWhile (fun c => c ≠ '&')
    let rest :=
      match query.dropWhile (fun c => c ≠ '&') with
      | [] => []
      | _ :: t => t
    if seg.contains ';' then parseQueryLoop fuel rest m true
    else if seg = [] then parseQueryLoop fuel rest m errFlag
    else
      let k := seg.takeWhile (fun c => c ≠ '=')
      let v :=
        match seg.dropWhile (fun c => c ≠ '=') with
        | [] => []
        | _ :: t => t
      match queryUnescape k with
      | none => parseQueryLoop fuel rest m true
      | some k' =>
        match queryUnescape v with
        | none => parseQueryLoop fuel rest m true
        | some v' => parseQueryLoop fuel rest (headerAdd m k' v') errFlag

/-- Model of `url.ParseQuery`: the accumulated values and whether an error was
returned. -/
def parseQuery (query : List Char) : Header × Bool :=
  parseQueryLoop (query.length + 1) query [] false

/-- Model of `HTTPRequest.parseQueryParams` of `pkg/http/request.go`, as the map
it stores: nothing for an empty path, no `?`, or an empty query string;
nothing when `url.ParseQuery` errs; otherwise the first value per key. -/
def parseQueryParamsFromPath (path : List Char) : List (List Char × List Char) :=
  if path = [] then []
  else
    let beforeQ := path.takeWhile (fun c => c ≠ '?')
    match path.dropWhile (fun c => c ≠ '?') with
    | [] => []
    | _ :: queryString =>
      if beforeQ.length = path.length then []
      else if queryString = [] then []
      else
        let (params, errFlag) := parseQuery queryString
        if errFlag then []
        else params.filterMap (fun e => (e.2.head?).map (fun v => (e.1, v)))

/-! ## The request value (`pkg/http/request.go` `HTTPRequest`) -/

/-- Model of `HTTPRequest`: `body` is the byte sequence the body reader yields
(`[]` for a nil body), `queryParams` is `none` when the Go field is a
nil map. -/
structure HTTPRequest where
  method : List Char
  path : List Char
  version : List Char
  headers : Header
  body : List Char
  queryParams : Option (List (List Char × List Char))
  deriving DecidableEq, Repr

/-- Model of `NewRequest`: note that `queryParams` is eagerly created as an empty
(non-nil) map. -/
def newRequest (method path version : List Char) : HTTPRequest :=
  { method := method, path := path, version := version,
    headers := [], body := [], queryParams := some [] }

/-- Model of `HTTPRequest.QueryParams()`: the lazy parse from the path happens
only when the stored map is nil. -/
def HTTPRequest.queryParamsFn (r : HTTPRequest) : List (List Char × List Char) :=
  match r.queryParams with
  | some m => m
  | none => parseQueryParamsFromPath r.path

/-! ## `ParseRequest` (buffered variant of `internal/http/request.go`) -/

/-- Does the list start with `\r\n\r\n`? -/
def startsWithTerm : List Char → Bool
  | '\r' :: '\n' :: '\r' :: '\n' :: _ => true
  | _ => false

/-- Model of `bytes.Index(data, []byte("\r\n\r\n"))`: index of the first header
terminator. -/
def findTerminator : List Char → Option Nat
  | [] => none
  | s@(_ :: t) => if startsWithTerm s then some 0 else (findTerminator t).map (· + 1)

/-- Model of `ParseRequest` of `internal/http/request.go` (the buffered variant):
read everything, locate the first `\r\n\r\n`, parse request line and
headers from the prefix, then frame the body with `ContentLength()`:
a body is read only when the parsed `Content-Length` is positive, in
which case the bytes after the terminator must number exactly that many,
else `ErrUnexpectedEOF`. -/
def parseRequest (data : List Char) : Except GoError HTTPRequest :=
  match findTerminator data with
  | none => .error (httpError ErrInvalidRequestLine)
  | some i =>
    let headerData := data.take i
    let bodyData := data.drop (i + 4)
    match scanLines headerData with
    | [] => .error (httpError ErrInvalidRequestLine)
    | firstLine :: restLines =>
      match parseRequestLine firstLine with
      | .error e => .error e
      | .ok (m, p, v) =>
        match parseHeaders restLines with
        | .error e => .error e
        | .ok hs =>
          let req : HTTPRequest :=
            { method := m, path := p, version := v, headers := hs,
              body := [], queryParams := some [] }
          let cl := contentLengthOf hs
          if 0 < cl then
            if (bodyData.length : Int) ≠ cl then .error (httpError ErrUnexpectedEOF)
            else .ok { req with body := bodyData }
          else .ok req

/-! ## The chunked transfer-encoding reader (`internal/http`,
`ChunkedReader` and `parseChunkSize`) -/

/-- Size of the default `bufio.Reader` buffer: `NewChunkedReader` wraps
its reader with `bufio.NewReader`, whose buffer holds 4096 bytes. -/
def bufioBufSize : Nat := 4096

/-- Model of `bufio.Reader.ReadLine` over the default 4096-byte
buffered reader: at end of input with nothing read, `io.EOF`; a line
whose `\n` lies within the buffer is returned with `\r\n` (or a bare
`\n`) stripped; an input that ends inside the buffer without a newline
is returned raw (the `io.EOF` of `ReadSlice` is dropped when data was
read); and when no `\n` appears in a full buffer (`ErrBufferFull`), the
4096 buffered bytes are returned as a truncated line with `isPrefix`
set — which `ChunkedReader.Read` discards — after pushing a trailing
`\r` back in case a `\r\n` straddles the buffer boundary. -/
def readLineB (s : List Char) : Except GoError (List Char × List Char) :=
  if s = [] then .error .eof
  else if (s.takeWhile notNL).length < bufioBufSize ∧
      (s.takeWhile notNL).length < s.length then
    .ok (dropCR (s.takeWhile notNL), s.drop ((s.takeWhile notNL).length + 1))
  else if s.length < bufioBufSize then
    .ok (s, [])
  else if (s.take bufioBufSize).getLast? = some '\r' then
    .ok (s.take (bufioBufSize - 1), s.drop (bufioBufSize - 1))
  else
    .ok (s.take bufioBufSize, s.drop bufioBufSize)

/-- Interpret an integer as a Go 64-bit `int`: two's-complement
wraparound modulo `2^64`. -/
def wrap64 (x : Int) : Int := (x + 2 ^ 63) % 2 ^ 64 - 2 ^ 63

/-- The accumulation loop of `parseChunkSize`: `size = size*16 + digit`
on Go `int`s (64-bit, wrapping). -/
def parseChunkSizeLoop : List Char → Int → Except GoError Int
  | [], acc => .ok acc
  | c :: cs, acc =>
    if isHexDigit c then parseChunkSizeLoop cs (wrap64 (acc * 16 + hexDigitVal c))
    else .error (httpError ErrChunkedEncodingInvalid)

/-- Is the character different from `;`?  (`parseChunkSize` strips a
chunk extension after the first semicolon.) -/
def notSemi (c : Char) : Bool := c ≠ ';'

/-- Model of `parseChunkSize` of `internal/http` (in the parser file): strip a
`;extension` suffix, then fold the hexadecimal digits. An empty line
yields size `0`. -/
def parseChunkSize (line : List Char) : Except GoError Int :=
  parseChunkSizeLoop (line.takeWhile notSemi) 0

/-- Model of `ChunkedReader` state: the unread input of the buffered reader, the
bytes remaining in the current chunk (`cr.n`), and the sticky error
(`cr.err`). -/
structure ChunkedState where
  input : List Char
  n : Int
  err : Option GoError
  deriving DecidableEq, Repr

/-- Model of `NewChunkedReader`. -/
def initChunked (input : List Char) : ChunkedState :=
  { input := input, n := 0, err := none }

/-- Model of `ChunkedReader.readTrailers`: read lines until an error or an empty
line; results are discarded. -/
def readTrailers (fuel : Nat) (s : List Char) : List Char :=
  match fuel with
  | 0 => s
  | fuel + 1 =>
    match readLineB s with
    | .error _ => s
    | .ok (line, rest) => if line = [] then rest else readTrailers fuel rest

/-- The tail of `ChunkedReader.Read` once `cr.n` holds the bytes left in
the current chunk: cap the destination at `cr.n`, read from the buffered
reader (`min` of the cap and the available input; `io.EOF` when the input
is empty), and consume the chunk-terminating CRLF when the chunk
completes. Returns (bytes read, error result, next state). -/
def chunkedDataRead (st : ChunkedState) (plen : Nat) :
    List Char × Option GoError × ChunkedState :=
  let cap := if (plen : Int) > st.n then st.n.toNat else plen
  if st.input = [] then
    ([], some .eof, { st with err := some .eof })
  else
    let k := min cap st.input.length
    let bytes := st.input.take k
    let input' := st.input.drop k
    let n' := st.n - k
    if n' = 0 then
      let input'' :=
        match readLineB input' with
        | .error _ => input'
        | .ok (_, rest) => rest
      (bytes, none, { input := input'', n := 0, err := none })
    else
      (bytes, none, { input := input', n := n', err := none })

/-- Model of `ChunkedReader.Read`: a sticky error is returned again; at a chunk
boundary (`cr.n == 0`) the next size line is read and parsed — a
malformed size or a size above `MaxChunkSize` poisons the reader with
`ErrChunkedEncodingInvalid`, a zero size reads the trailers and ends with
`io.EOF` — and otherwise data of the current chunk is read. -/
def chunkedRead (st : ChunkedState) (plen : Nat) :
    List Char × Option GoError × ChunkedState :=
  match st.err with
  | some e => ([], some e, st)
  | none =>
    if st.n = 0 then
      match readLineB st.input with
      | .error e => ([], some e, { st with err := some e })
      | .ok (line, rest) =>
        match parseChunkSize line with
        | .error _ =>
          let e := httpError ErrChunkedEncodingInvalid
          ([], some e, { input := rest, n := 0, err := some e })
        | .ok sz =>
          if sz = 0 then
            let rest' := readTrailers (rest.length + 1) rest
            ([], some .eof, { input := rest', n := 0, err := some .eof })
          else if sz > MaxChunkSize then
            let e := httpError ErrChunkedEncodingInvalid
            ([], some e, { input := rest, n := 0, err := some e })
          else
            chunkedDataRead { input := rest, n := sz, err := none } plen
    else
      chunkedDataRead st plen

/-- Drain a `ChunkedReader` by repeated `Read` calls with a fixed
destination size, concatenating the bytes until a call returns an
error. -/
def chunkedDrain : Nat → ChunkedState → Nat → List Char × Option GoError
  | 0, _, _ => ([], none)
  | fuel + 1, st, plen =>
    match chunkedRead st plen with
    | (bs, some e, _) => (bs, some e)
    | (bs, none, st') =>
      let (bs', e') := chunkedDrain fuel st' plen
      (bs ++ bs', e')

/-! ## TCP connection (`internal/tcp/connection.go`) -/

/-- Model of `ErrMsgConnectionClosed` of `pkg/tcp/constants.go`. -/
def ErrMsgConnectionClosed : String := "connection is closed"

/-- Model of `ErrMsgListenerClosed` of `pkg/tcp/constants.go`. -/
def ErrMsgListenerClosed : String := "listener is closed"

/-- Model of `ErrMsgMessageTooLarge` of `pkg/tcp/constants.go`. -/
def ErrMsgMessageTooLarge : String := "message too large"

/-- The message of the `ServerError` returned by `Start` on a running
server. -/
def msgServerAlreadyRunning : String := "server is already running"

/-- The message of the `ServerError` returned by `Start` with no
handler. -/
def msgNoConnectionHandler : String := "no connection handler set"

/-- The message wrapped around a read error in
`ReadMessageWithTimeout`. -/
def msgReadMessageChunkFailed : String := "failed to read message chunk"

/-- Model of `tcpConnection`: the closed flag, the bytes still readable from the
peer, and the bytes written so far.  The underlying socket operations are
modelled as succeeding; the lock serialises the operations, which the
sequential model reflects. -/
structure TCPConn where
  closed : Bool
  rstream : List Char
  written : List Char
  deriving DecidableEq, Repr

/-- Model of `tcpConnection.Read`: fails with `NetworkError("connection is
closed")` on a closed connection, otherwise delegates to the socket
(modelled: up to `plen` available bytes, `io.EOF` when the stream is
exhausted). -/
def connRead (c : TCPConn) (plen : Nat) : Except GoError (List Char) × TCPConn :=
  if c.closed then (.error (networkError ErrMsgConnectionClosed), c)
  else if c.rstream = [] then (.error .eof, c)
  else
    let k := min plen c.rstream.length
    (.ok (c.rstream.take k), { c with rstream := c.rstream.drop k })

/-- Model of `tcpConnection.Write`: fails with `NetworkError("connection is
closed")` on a closed connection, otherwise delegates to the socket. -/
def connWrite (c : TCPConn) (data : List Char) : Except GoError Nat × TCPConn :=
  if c.closed then (.error (networkError ErrMsgConnectionClosed), c)
  else (.ok data.length, { c with written := c.written ++ data })

/-- Model of `tcpConnection.Close`: a second close returns `nil` immediately;
the first close sets the flag, flushes, and closes the socket
(modelled as succeeding). -/
def connClose (c : TCPConn) : TCPConn × Option GoError :=
  if c.closed then (c, none)
  else ({ c with closed := true }, none)

/-! ## TCP listener (`internal/tcp/listener.go`) -/

/-- What a call to `Accept` does in the sequential model. -/
inductive AcceptOutcome where
  | conn (c : TCPConn)
  | fail (e : GoError)
  | blocked
  deriving DecidableEq, Repr

/-- Model of `tcpListener`: the atomic closed flag and the queue of accept
results the accept goroutine has handed off, in order. -/
structure TCPListener where
  closed : Bool
  pending : List (Except GoError TCPConn)
  deriving Repr

/-- Model of `tcpListener.Accept`: the closed flag is checked first and yields
`NetworkError("listener is closed")`; otherwise the next hand-off is
taken (or the call blocks until one arrives or the listener closes). -/
def listenerAccept (l : TCPListener) : AcceptOutcome × TCPListener :=
  if l.closed then (.fail (networkError ErrMsgListenerClosed), l)
  else
    match l.pending with
    | [] => (.blocked, l)
    | .ok c :: rest => (.conn c, { l with pending := rest })
    | .error e :: rest => (.fail e, { l with pending := rest })

/-- Model of `tcpListener.Close`: the compare-and-swap makes a second close
return `nil` without side effects; the first close signals shutdown and
closes the socket (modelled as succeeding). -/
def listenerClose (l : TCPListener) : TCPListener × Option GoError :=
  if l.closed then (l, none)
  else ({ l with closed := true }, none)

/-! ## TCP server (`internal/tcp/listener.go`, `tcpServer`) -/

/-- Model of `tcpServer`: the `running` flag and whether a handler was set. -/
structure TCPServer where
  running : Bool
  hasHandler : Bool
  deriving DecidableEq, Repr

/-- Model of `tcpServer.Start`: rejects a running server, then a nil handler;
otherwise marks the server running and launches the accept loop. -/
def serverStart (s : TCPServer) : TCPServer × Option GoError :=
  if s.running then (s, some (serverError msgServerAlreadyRunning))
  else if !s.hasHandler then (s, some (serverError msgNoConnectionHandler))
  else ({ s with running := true }, none)

/-- Model of `tcpServer.Stop`: a non-running server is left untouched with a
`nil` result; a running one is marked stopped, the listener closed, the
workers awaited — and `nil` returned in every case. -/
def serverStop (s : TCPServer) : TCPServer × Option GoError :=
  if !s.running then (s, none)
  else ({ s with running := false }, none)

/-! ## Message framing (`messageConnection.ReadMessageWithTimeout`) -/

/-- Model of `MaxMessageSize` of `pkg/tcp/constants.go` (1 MiB). -/
def MaxMessageSize : Nat := 1048576

/-- Model of `messageReadChunkSize` of `internal/tcp/constants.go`. -/
def messageReadChunkSize : Nat := 1024

/-- The scan of `findDelimiter`: `matchDelimiter` at each position in
turn (a prefix test), yielding the first matching index. -/
def findDelimGo : List Char → List Char → Option Nat
  | [], _ => none
  | s@(_ :: t), d => if d.isPrefixOf s then some 0 else (findDelimGo t d).map (· + 1)

/-- Model of `findDelimiter` of `internal/tcp/connection.go`: index of the first
occurrence of `delim` in `buffer`; an empty delimiter is never found. -/
def findDelim (buffer delim : List Char) : Option Nat :=
  if delim = [] then none else findDelimGo buffer delim

/-- The read loop of `ReadMessageWithTimeout` over the incoming stream:
each iteration reads up to 1024 bytes (an empty stream is `io.EOF`: the
buffered message is returned as is when non-empty, otherwise the read
error is wrapped and returned), appends them, returns the prefix before
the delimiter when one is now present, and otherwise enforces the 1 MiB
cap before looping. -/
def readMsgLoop (delim buffer stream : List Char) : Except GoError (List Char) :=
  if stream = [] then
    if buffer.length > 0 then .ok buffer
    else .error (networkErrorWithCause msgReadMessageChunkFailed .eof)
  else
    let k := min messageReadChunkSize stream.length
    let buffer' := buffer ++ stream.take k
    match findDelim buffer' delim with
    | some i => .ok (buffer'.take i)
    | none =>
      if buffer'.length > MaxMessageSize then .error (protocolError ErrMsgMessageTooLarge)
      else readMsgLoop delim buffer' (stream.drop k)
termination_by stream.length
decreasing_by
  have h1 : 1 ≤ min messageReadChunkSize stream.length := by
    have : stream.length ≠ 0 := by
      simpa [List.length_eq_zero] using (by assumption : ¬stream = [])
    simp [messageReadChunkSize]
    omega
  simp only [List.length_drop]
  omega

/-- Model of `messageConnection.ReadMessageWithTimeout` on an open connection
whose incoming stream is `stream` (the deadline set-up succeeds and is
not reached in the model). -/
def readMessageWithTimeout (delim stream : List Char) : Except GoError (List Char) :=
  readMsgLoop delim [] stream

/-- Mathematical value of a hexadecimal digit string (fails on a
non-hex character); the reference semantics a chunk-size line denotes. -/
def hexValLoop : List Char → Nat → Option Nat
  | [], acc => some acc
  | c :: cs, acc =>
    if isHexDigit c then hexValLoop cs (acc * 16 + hexDigitVal c) else none

def hexValM (line : List Char) : Option Nat := hexValLoop line 0

/-! # Theorems settling the claims -/

/-- The S3 scenario input of the specification. -/
def s3Data : List Char :=
  ("GET /api/users?id=123 HTTP/1.1\r\nHost: example.com\r\n\r\n").toList

/-- C1: parsing the S3 input succeeds with the expected path, but
`QueryParams()` returns the empty map — `NewRequest` eagerly creates a
non-nil empty `queryParams` map, so the lazy parse in `QueryParams()`
(which, run on a nil map, would indeed produce `{"id": "123"}`) never
fires for a parsed request.  This refutes both the concrete expectation
`{"id": "123"}` and the general first-value-per-key claim. -/
theorem s3_parse_succeeds_but_queryParams_empty :
    ((parseRequest s3Data).toOption.map
        (fun r => (r.path, r.queryParams, r.queryParamsFn)))
      = some ("/api/users?id=123".toList, some [], []) ∧
    (HTTPRequest.queryParamsFn
        { method := "GET".toList, path := "/api/users?id=123".toList,
          version := "HTTP/1.1".toList, headers := [], body := [],
          queryParams := none })
      = [("id".toList, "123".toList)] := by
  constructor
  · decide
  · decide

/-- Headers of a request that stored a header under the name `Host`. -/
def hostHeaders : Header := headerAdd [] ("Host".toList) ("example.com".toList)

/-- C2 counterexample: a header stored as `Host` is not found when the
lookup uses the casing `host`: `GetHeader` returns `""`, `GetHeaders`
returns `nil` and `HasHeader` returns `false`, while the exact-case
lookup finds the value — so lookup is not case-insensitive. -/
theorem header_lookup_not_case_insensitive :
    getHeader hostHeaders ("Host".toList) = "example.com".toList ∧
    getHeader hostHeaders ("host".toList) = [] ∧
    getHeaders hostHeaders ("host".toList) = [] ∧
    hasHeader hostHeaders ("host".toList) = false := by
  refine ⟨by rfl, by rfl, by rfl, by rfl⟩

/-- A request whose `Content-Length` value is not a decimal number. -/
def clInvalidData : List Char :=
  ("GET / HTTP/1.1\r\nContent-Length: abc\r\n\r\n").toList

/-- C3 counterexample: a present `Content-Length` header whose value is
not a decimal integer does not fail the parse — `ContentLength()` maps
the parse error to `0` and `ParseRequest` succeeds with an empty body. -/
theorem invalid_content_length_accepted :
    goParseInt64 ("abc".toList) = none ∧
    (∃ r, parseRequest clInvalidData = .ok r ∧
      hasHeader r.headers headerContentLength = true ∧ r.body = []) := by
  refine ⟨by decide,
    ⟨{ method := "GET".toList, path := "/".toList, version := "HTTP/1.1".toList,
       headers := [(headerContentLength, ["abc".toList])], body := [],
       queryParams := some [] }, by decide, by decide, by decide⟩⟩

/-- C4 counterexample: a header line whose name begins with `-` does not
match `[A-Za-z0-9][A-Za-z0-9-]*`, yet `parseHeader` accepts it —
`isValidHeaderName` does not treat the first character specially. -/
theorem leading_hyphen_header_accepted :
    parseHeader ("-Foo: bar".toList) = .ok ("-Foo".toList, "bar".toList) ∧
    isHeaderNameChar '-' = true := by
  exact ⟨rfl, rfl⟩

/-- The S6 scenario chunked body of the specification. -/
def s6Chunked : List Char := ("5\r\nHello\r\n6\r\n World\r\n0\r\n\r\n").toList

/-- C5: draining the chunked reader on the S6 body yields exactly the
bytes `Hello World`, and the zero-size chunk ends the stream cleanly
with `io.EOF`. -/
theorem chunked_s6_yields_hello_world :
    chunkedDrain 10 (initChunked s6Chunked) 20
      = ("Hello World".toList, some GoError.eof) := by
  rfl

/-- C6 counterexample: the chunk-size line `10000000000000000` denotes
`2^64` — far above the 64 KiB bound — but the Go `int` accumulation
wraps to `0`, so the reader treats it as the terminating chunk and
reports a clean `io.EOF` instead of `ErrChunkedEncodingInvalid`. -/
theorem oversized_chunk_size_wraps_to_eof :
    hexValM ("10000000000000000".toList) = some (2 ^ 64) ∧
    (65536 : Nat) < 2 ^ 64 ∧
    (chunkedRead (initChunked ("10000000000000000\r\nHello\r\n".toList)) 20).2.1
      = some GoError.eof ∧
    GoError.eof ≠ httpError ErrChunkedEncodingInvalid := by
  refine ⟨by rfl, by norm_num, by rfl, by simp [httpError]⟩

/-- C8: `Start` on a running server fails with `ServerError("server is
already running")`; `Start` without a handler fails with
`ServerError("no connection handler set")`; otherwise `Start` moves the
server to the running state; and `Stop` on a non-running server is a
no-op returning `nil`. -/
theorem server_start_stop_contract :
    (∀ h : Bool, serverStart ⟨true, h⟩
        = (⟨true, h⟩, some (serverError msgServerAlreadyRunning))) ∧
    serverStart ⟨false, false⟩
      = (⟨false, false⟩, some (serverError msgNoConnectionHandler)) ∧
    serverStart ⟨false, true⟩ = (⟨true, true⟩, none) ∧
    (∀ h : Bool, serverStop ⟨false, h⟩ = (⟨false, h⟩, none)) := by
  refine ⟨?_, by rfl, by rfl, ?_⟩
  · intro h; cases h <;> rfl
  · intro h; cases h <;> rfl

/-- The header block of `WriteRequest`/`WriteResponse`: each stored
value serialized as `NAME ": " VALUE "\r\n"` with the stored casing. -/
def serializeHeaders (hs : Header) : List Char :=
  hs.flatMap (fun e => e.2.flatMap (fun v => e.1 ++ (": ".toList) ++ v ++ ['\r', '\n']))

/-- C2 amended: header lookup is exact (case-sensitive): the operations
return the values stored under the byte-for-byte matching key and treat
every other spelling — including a re-cased one — as absent, while
serialization emits the stored casing verbatim. -/
theorem header_lookup_exact_case :
    (∀ (hs : Header) (n : List Char) (vs : List (List Char)),
        headerLookup hs n = some vs →
          getHeaders hs n = vs ∧ hasHeader hs n = true ∧
          getHeader hs n = vs.headD []) ∧
    (∀ (hs : Header) (n : List Char),
        headerLookup hs n = none →
          getHeader hs n = [] ∧ getHeaders hs n = [] ∧ hasHeader hs n = false) ∧
    (∀ (n v : List Char) (vs : List (List Char)) (rest : Header),
        n <+: serializeHeaders ((n, v :: vs) :: rest)) := by
  refine ⟨?_, ?_, ?_⟩
  · intro hs n vs h
    refine ⟨by simp [getHeaders, h], by simp [hasHeader, h], ?_⟩
    cases vs with
    | nil => simp [getHeader, h]
    | cons v vs => simp [getHeader, h]
  · intro hs n h
    exact ⟨by simp [getHeader, h], by simp [getHeaders, h], by simp [hasHeader, h]⟩
  · intro n v vs rest
    simp only [serializeHeaders, List.flatMap_cons, List.append_assoc]
    exact List.prefix_append n _

/-- C4 amended: a header line with no colon is rejected with
`ErrInvalidHeader`; one whose trimmed name fails the implemented grammar
`[A-Za-z0-9-]+` is rejected with `ErrInvalidHeader`; and every accepted
name is a non-empty string of letters, digits and hyphens (a leading
hyphen is allowed). -/
theorem parseHeader_colon_and_name_grammar :
    (∀ line : List Char, line.all notColon = true →
        parseHeader line = .error (httpError ErrInvalidHeader)) ∧
    (∀ line : List Char,
        (line.takeWhile notColon).length ≠ line.length →
        isValidHeaderName (trimSpace (line.takeWhile notColon)) = false →
        parseHeader line = .error (httpError ErrInvalidHeader)) ∧
    (∀ (line name value : List Char), parseHeader line = .ok (name, value) →
        name ≠ [] ∧ name.all isHeaderNameChar = true) := by
  refine ⟨?_, ?_, ?_⟩
  · intro line h
    have ht : line.takeWhile notColon = line := by
      rw [List.takeWhile_eq_self_iff]
      intro a ha
      exact (List.all_eq_true.mp h) a ha
    simp [parseHeader, ht]
  · intro line h1 h2
    simp [parseHeader, h1, h2]
  · intro line name value h
    unfold parseHeader at h
    by_cases hlen : (line.takeWhile notColon).length = line.length
    · simp [hlen] at h
    · simp only [hlen, if_false] at h
      by_cases hv : isValidHeaderName (trimSpace (line.takeWhile notColon))
      · simp only [hv, if_true, Except.ok.injEq, Prod.mk.injEq] at h
        obtain ⟨hn, _⟩ := h
        subst hn
        revert hv
        unfold isValidHeaderName
        cases trimSpace (line.takeWhile notColon) with
        | nil => intro hv; simp at hv
        | cons c t => intro hv; exact ⟨by simp, hv⟩
      · simp [hv] at h

/-- The `httpResponse` value of `pkg/http/response.go` (status code,
version, headers, body). -/
structure HTTPResponse where
  statusCode : Int
  version : List Char
  headers : Header
  body : List Char
  deriving DecidableEq, Repr

/-- Model of `HTTPRequest.ContentLength()`. -/
def HTTPRequest.contentLength (r : HTTPRequest) : Int := contentLengthOf r.headers

/-- Model of `httpResponse.ContentLength()` — its code is identical to the
request accessor. -/
def HTTPResponse.contentLength (r : HTTPResponse) : Int := contentLengthOf r.headers

/-- C9: the `ContentLength` accessor of requests and responses never
reports an error: a missing `Content-Length` header, an empty value
slice, or an unparsable first value all yield `0`, and a parsable first
value — which may be negative — is returned as parsed. -/
theorem contentLength_defaults_and_value :
    (∀ r : HTTPRequest, r.contentLength = contentLengthOf r.headers) ∧
    (∀ r : HTTPResponse, r.contentLength = contentLengthOf r.headers) ∧
    (∀ hs : Header, headerLookup hs headerContentLength = none →
        contentLengthOf hs = 0) ∧
    (∀ hs : Header, headerLookup hs headerContentLength = some [] →
        contentLengthOf hs = 0) ∧
    (∀ (hs : Header) (v : List Char) (rest : List (List Char)),
        headerLookup hs headerContentLength = some (v :: rest) →
          (goParseInt64 v = none → contentLengthOf hs = 0) ∧
          (∀ n : Int, goParseInt64 v = some n → contentLengthOf hs = n)) ∧
    (∃ hs : Header, contentLengthOf hs < 0) := by
  refine ⟨fun _ => rfl, fun _ => rfl, ?_, ?_, ?_, ?_⟩
  · intro hs h; simp [contentLengthOf, h]
  · intro hs h; simp [contentLengthOf, h]
  · intro hs v rest h
    constructor
    · intro hp; simp [contentLengthOf, h, hp]
    · intro n hp; simp [contentLengthOf, h, hp]
  · exact ⟨[(headerContentLength, ["-7".toList])], by decide⟩

/-- C9 witness: the accessor evaluated at concrete header maps through
the theorem: absent header, empty values, unparsable value, negative
value. -/
theorem contentLength_defaults_and_value_witness :
    contentLengthOf [] = 0 ∧
    contentLengthOf [(headerContentLength, [])] = 0 ∧
    contentLengthOf [(headerContentLength, ["abc".toList])] = 0 ∧
    contentLengthOf [(headerContentLength, ["-7".toList])] = -7 := by
  refine ⟨?_, ?_, ?_, ?_⟩
  · exact contentLength_defaults_and_value.2.2.1 [] (by decide)
  · exact contentLength_defaults_and_value.2.2.2.1 [(headerContentLength, [])] (by decide)
  · exact (contentLength_defaults_and_value.2.2.2.2.1
      [(headerContentLength, ["abc".toList])] ("abc".toList) [] (by decide)).1 (by decide)
  · exact (contentLength_defaults_and_value.2.2.2.2.1
      [(headerContentLength, ["-7".toList])] ("-7".toList) [] (by decide)).2 (-7) (by decide)

/-- C7: closing a connection or a listener twice returns `nil` both
times; a closed connection fails `Read` and `Write` with
`NetworkError("connection is closed")`; a closed listener fails `Accept`
with `NetworkError("listener is closed")`; and no operation un-closes
anything, so this holds for every subsequent call. -/
theorem close_idempotent_and_closed_ops_fail :
    (∀ c : TCPConn, (connClose c).2 = none ∧ (connClose (connClose c).1).2 = none ∧
        ((connClose c).1).closed = true) ∧
    (∀ (c : TCPConn) (plen : Nat), (connRead ((connClose c).1) plen).1
        = .error (networkError ErrMsgConnectionClosed)) ∧
    (∀ (c : TCPConn) (data : List Char), (connWrite ((connClose c).1) data).1
        = .error (networkError ErrMsgConnectionClosed)) ∧
    (∀ (c : TCPConn) (plen : Nat), ((connRead c plen).2).closed = c.closed) ∧
    (∀ (c : TCPConn) (data : List Char), ((connWrite c data).2).closed = c.closed) ∧
    (∀ l : TCPListener, (listenerClose l).2 = none ∧
        (listenerClose (listenerClose l).1).2 = none ∧
        ((listenerClose l).1).closed = true) ∧
    (∀ l : TCPListener, (listenerAccept ((listenerClose l).1)).1
        = .fail (networkError ErrMsgListenerClosed)) ∧
    (∀ l : TCPListener, ((listenerAccept l).2).closed = l.closed) := by
  refine ⟨?_, ?_, ?_, ?_, ?_, ?_, ?_, ?_⟩
  · intro c
    by_cases h : c.closed <;> simp [connClose, h]
  · intro c plen
    by_cases h : c.closed <;> simp [connClose, connRead, h]
  · intro c data
    by_cases h : c.closed <;> simp [connClose, connWrite, h]
  · intro c plen
    by_cases h : c.closed <;> by_cases hs : c.rstream = [] <;>
      simp [connRead, h, hs]
  · intro c data
    by_cases h : c.closed <;> simp [connWrite, h]
  · intro l
    by_cases h : l.closed <;> simp [listenerClose, h]
  · intro l
    by_cases h : l.closed <;> simp [listenerClose, listenerAccept, h]
  · intro l
    by_cases h : l.closed
    · simp [listenerAccept, h]
    · cases hp : l.pending with
      | nil => simp [listenerAccept, h, hp]
      | cons r rest => cases r <;> simp [listenerAccept, h, hp]

/-- C2 witness: the amended lookup/serialization behaviour evaluated on
concrete header maps. -/
theorem header_lookup_exact_case_witness :
    (getHeaders hostHeaders ("Host".toList) = ["example.com".toList] ∧
     hasHeader hostHeaders ("Host".toList) = true ∧
     getHeader hostHeaders ("Host".toList)
       = (["example.com".toList] : List (List Char)).headD []) ∧
    (getHeader hostHeaders ("HOST".toList) = [] ∧
     getHeaders hostHeaders ("HOST".toList) = [] ∧
     hasHeader hostHeaders ("HOST".toList) = false) ∧
    ("Host".toList <+: serializeHeaders [("Host".toList, ["example.com".toList])]) :=
  ⟨header_lookup_exact_case.1 hostHeaders _ _ (by decide),
   header_lookup_exact_case.2.1 hostHeaders _ (by decide),
   header_lookup_exact_case.2.2 _ ("example.com".toList) [] []⟩

/-- C4 witness: the amended header-line behaviour evaluated on concrete
lines: no colon, an invalid name, and an accepted name. -/
theorem parseHeader_colon_and_name_grammar_witness :
    parseHeader ("no colon here".toList) = .error (httpError ErrInvalidHeader) ∧
    parseHeader ("B@d: v".toList) = .error (httpError ErrInvalidHeader) ∧
    (("Host".toList : List Char) ≠ [] ∧ ("Host".toList).all isHeaderNameChar = true) :=
  ⟨parseHeader_colon_and_name_grammar.1 _ (by decide),
   parseHeader_colon_and_name_grammar.2.1 _ (by decide) (by decide),
   parseHeader_colon_and_name_grammar.2.2 ("Host: x".toList) ("Host".toList)
     ("x".toList) (by decide)⟩

/-! ## Lemmas for `ReadMessage` (C10) -/

theorem findDelimGo_append_none (d : List Char) :
    ∀ l t : List Char, findDelimGo (l ++ t) d = none → findDelimGo l d = none := by
  intro l
  induction l with
  | nil => intro t _; rfl
  | cons c l' ih =>
    intro t h
    rw [List.cons_append, findDelimGo] at h
    by_cases hp : d.isPrefixOf (c :: (l' ++ t)) = true
    · rw [if_pos hp] at h
      exact absurd h (by simp)
    · rw [if_neg hp, Option.map_eq_none'] at h
      rw [findDelimGo]
      have hp' : ¬ d.isPrefixOf (c :: l') = true := by
        intro hc
        have h1 : d <+: (c :: l') := List.isPrefixOf_iff_prefix.mp hc
        have h2 : (c :: l') <+: (c :: l') ++ t := List.prefix_append _ _
        exact hp (List.isPrefixOf_iff_prefix.mpr (h1.trans h2))
      rw [if_neg hp', ih t h]
      rfl

theorem findDelim_append_none (d l t : List Char)
    (h : findDelim (l ++ t) d = none) : findDelim l d = none := by
  unfold findDelim at h ⊢
  by_cases hd : d = []
  · simp [hd]
  · simp only [hd, if_false] at h ⊢
    exact findDelimGo_append_none d l t h

theorem readMsgLoop_no_delim :
    ∀ (N : Nat) (delim buffer stream : List Char), stream.length ≤ N →
      findDelim (buffer ++ stream) delim = none →
      (buffer ++ stream).length ≤ MaxMessageSize →
      buffer ++ stream ≠ [] →
      readMsgLoop delim buffer stream = .ok (buffer ++ stream) := by
  intro N
  induction N with
  | zero =>
    intro delim buffer stream hlen _ _ hne
    have hs : stream = [] := by
      cases stream with
      | nil => rfl
      | cons a t => simp at hlen
    subst hs
    rw [readMsgLoop]
    simp only [if_true]
    have hb : buffer ≠ [] := by simpa using hne
    simp [hb, List.length_pos_iff_ne_nil]
  | succ n ih =>
    intro delim buffer stream hlen hfd hsize hne
    by_cases hs : stream = []
    · subst hs
      rw [readMsgLoop]
      simp only [if_true]
      have hb : buffer ≠ [] := by simpa using hne
      simp [hb, List.length_pos_iff_ne_nil]
    · rw [readMsgLoop]
      simp only [hs, if_false]
      have hk1 : 1 ≤ min messageReadChunkSize stream.length := by
        have h0 : stream.length ≠ 0 := by
          simpa [List.length_eq_zero] using hs
        simp only [messageReadChunkSize, le_min_iff]
        omega
      set k := min messageReadChunkSize stream.length with hk
      have hbs : (buffer ++ stream.take k) ++ stream.drop k = buffer ++ stream := by
        rw [List.append_assoc, List.take_append_drop]
      have hfd' : findDelim (buffer ++ stream.take k) delim = none := by
        apply findDelim_append_none delim _ (stream.drop k)
        rw [hbs]; exact hfd
      rw [hfd']
      have hlen' : (buffer ++ stream.take k).length ≤ MaxMessageSize := by
        have hle : (buffer ++ stream.take k).length ≤ (buffer ++ stream).length := by
          simp only [List.length_append, List.length_take]
          omega
        omega
      have hcond : ¬ (buffer ++ stream.take k).length > MaxMessageSize := by omega
      rw [if_neg hcond]
      have hrec := ih delim (buffer ++ stream.take k) (stream.drop k)
        (by
          simp only [List.length_drop]
          omega)
        (by rw [hbs]; exact hfd)
        (by rw [hbs]; exact hsize)
        (by rw [hbs]; exact hne)
      rw [hrec, hbs]

/-- C10: when the incoming stream ends (within the 1 MiB cap) before the
delimiter ever appears, `ReadMessage` returns all accumulated bytes with
a `nil` error; only an end-of-stream with nothing accumulated is an
error (the wrapped `io.EOF`). -/
theorem readMessage_partial_message_on_eof :
    (∀ delim stream : List Char,
        findDelim stream delim = none → stream.length ≤ MaxMessageSize →
        stream ≠ [] → readMessageWithTimeout delim stream = .ok stream) ∧
    (∀ delim : List Char, readMessageWithTimeout delim []
        = .error (networkErrorWithCause msgReadMessageChunkFailed .eof)) := by
  constructor
  · intro delim stream h1 h2 h3
    have h := readMsgLoop_no_delim stream.length delim [] stream le_rfl
      (by simpa using h1) (by simpa using h2) (by simpa using h3)
    simpa [readMessageWithTimeout] using h
  · intro delim
    rw [readMessageWithTimeout, readMsgLoop]
    simp

/-- C10 witness: a delimiterless three-byte stream is returned whole
with no error; the empty stream is an error. -/
theorem readMessage_partial_message_on_eof_witness :
    readMessageWithTimeout ("\n".toList) ("abc".toList) = .ok ("abc".toList) ∧
    readMessageWithTimeout ("\n".toList) []
      = .error (networkErrorWithCause msgReadMessageChunkFailed .eof) :=
  ⟨readMessage_partial_message_on_eof.1 _ _ (by decide) (by decide) (by decide),
   readMessage_partial_message_on_eof.2 _⟩

/-! ## Lemmas for the chunk-size bound (C6) -/

theorem hexValLoop_le : ∀ (cs : List Char) (acc v : Nat),
    hexValLoop cs acc = some v → acc ≤ v := by
  intro cs
  induction cs with
  | nil =>
    intro acc v h
    simp [hexValLoop] at h
    omega
  | cons c cs ih =>
    intro acc v h
    rw [hexValLoop] at h
    by_cases hc : isHexDigit c = true
    · rw [if_pos hc] at h
      have := ih _ _ h
      omega
    · rw [if_neg hc] at h
      exact absurd h (by simp)

theorem wrap64_eq_self (x : Int) (h1 : 0 ≤ x) (h2 : x < 2 ^ 63) : wrap64 x = x := by
  unfold wrap64
  have h63 : (2 : Int) ^ 63 = 9223372036854775808 := by norm_num
  have h64 : (2 : Int) ^ 64 = 18446744073709551616 := by norm_num
  have hmod : (x + 2 ^ 63) % 2 ^ 64 = x + 2 ^ 63 :=
    Int.emod_eq_of_lt (by omega) (by omega)
  omega

theorem parseChunkSizeLoop_eq_hexVal :
    ∀ (cs : List Char) (acc v : Nat), hexValLoop cs acc = some v → v < 2 ^ 63 →
      parseChunkSizeLoop cs (acc : Int) = .ok (v : Int) := by
  intro cs
  induction cs with
  | nil =>
    intro acc v h _
    simp [hexValLoop] at h
    simp [parseChunkSizeLoop, h]
  | cons c cs ih =>
    intro acc v h hv
    rw [hexValLoop] at h
    by_cases hc : isHexDigit c = true
    · rw [if_pos hc] at h
      rw [parseChunkSizeLoop, if_pos hc]
      have hle : acc * 16 + hexDigitVal c ≤ v := hexValLoop_le cs _ v h
      have hw : wrap64 ((acc : Int) * 16 + (hexDigitVal c : Int))
          = ((acc * 16 + hexDigitVal c : Nat) : Int) := by
        push_cast
        apply wrap64_eq_self
        · positivity
        · have hn : ((acc * 16 + hexDigitVal c : Nat) : Int) < 2 ^ 63 := by
            have hvz : ((v : Nat) : Int) < 2 ^ 63 := by exact_mod_cast hv
            have := hle
            push_cast
            push_cast at hvz
            omega
          push_cast at hn
          convert hn using 1
      have hcast : wrap64 ((acc : Int) * 16 + hexDigitVal c)
          = ((acc * 16 + hexDigitVal c : Nat) : Int) := hw
      rw [hcast]
      exact ih _ _ h hv
    · rw [if_neg hc] at h
      exact absurd h (by simp)

theorem parseChunkSizeLoop_err_of_bad :
    ∀ (cs : List Char) (acc : Int), (∃ c ∈ cs, isHexDigit c = false) →
      parseChunkSizeLoop cs acc = .error (httpError ErrChunkedEncodingInvalid) := by
  intro cs
  induction cs with
  | nil =>
    intro acc h
    rcases h with ⟨c, hc, _⟩
    simp at hc
  | cons c cs ih =>
    intro acc h
    rcases h with ⟨x, hx, hbad⟩
    rw [parseChunkSizeLoop]
    by_cases hc : isHexDigit c = true
    · rw [if_pos hc]
      apply ih
      rcases List.mem_cons.mp hx with h | h
      · subst h
        rw [hc] at hbad
        simp at hbad
      · exact ⟨x, h, hbad⟩
    · rw [if_neg hc]

theorem takeWhile_notNL_append :
    ∀ (l r : List Char), '\n' ∉ l →
      (l ++ '\r' :: '\n' :: r).takeWhile notNL = l ++ ['\r'] := by
  intro l
  induction l with
  | nil =>
    intro r _
    simp [List.takeWhile_cons, notNL]
  | cons c t ih =>
    intro r h
    have hc : notNL c = true := by
      have hcne : ¬ c = '\n' := fun hcc => h (by simp [hcc])
      simp [notNL, hcne]
    have ht : '\n' ∉ t := fun htt => h (by simp [htt])
    rw [List.cons_append, List.takeWhile_cons, hc]
    simp only [if_true, ih r ht, List.cons_append]

theorem dropCR_append_cr (l : List Char) : dropCR (l ++ ['\r']) = l := by
  unfold dropCR
  rw [List.reverse_append]
  simp

theorem readLineB_crlf (line rest : List Char) (h : '\n' ∉ line)
    (hbuf : line.length + 1 < bufioBufSize) :
    readLineB (line ++ '\r' :: '\n' :: rest) = .ok (line, rest) := by
  unfold readLineB
  have hne : ¬ (line ++ '\r' :: '\n' :: rest) = [] := by simp
  rw [if_neg hne]
  have hpre : (line ++ '\r' :: '\n' :: rest).takeWhile notNL = line ++ ['\r'] :=
    takeWhile_notNL_append line rest h
  rw [hpre]
  have hc1 : (line ++ ['\r']).length < bufioBufSize := by
    simpa using hbuf
  have hc2 : (line ++ ['\r']).length < (line ++ '\r' :: '\n' :: rest).length := by
    simp
  rw [if_pos ⟨hc1, hc2⟩, dropCR_append_cr]
  have hdrop : (line ++ '\r' :: '\n' :: rest).drop ((line ++ ['\r']).length + 1)
      = rest := by
    have hsplit : line ++ '\r' :: '\n' :: rest = (line ++ ['\r', '\n']) ++ rest := by
      simp
    have hl : (line ++ ['\r']).length + 1 = (line ++ ['\r', '\n']).length := by
      simp
    rw [hsplit, hl, List.drop_left]
  rw [hdrop]

theorem le_takeWhile_length :
    ∀ (n : Nat) (s : List Char), n ≤ s.length → '\n' ∉ s.take n →
      n ≤ (s.takeWhile notNL).length := by
  intro n
  induction n with
  | zero =>
    intro s _ _
    exact Nat.zero_le _
  | succ k ih =>
    intro s hn hmem
    cases s with
    | nil => simp at hn
    | cons c t =>
      have hc : notNL c = true := by
        have hcm : c ∈ (c :: t).take (k + 1) := by simp [List.take]
        have hcne : ¬ c = '\n' := fun hcc => hmem (hcc ▸ hcm)
        simp [notNL, hcne]
      have ht : '\n' ∉ t.take k := by
        intro hm
        exact hmem (by simp [List.take, hm])
      have := ih t (by simpa using hn) ht
      rw [List.takeWhile_cons, hc]
      simp only [if_true, List.length_cons]
      omega

/-- Model check for the `ErrBufferFull` path: a stream whose first 4096
bytes hold no `\n` (and do not end in `\r`) makes `ReadLine` hand back
the truncated 4096-byte prefix with no error. -/
theorem readLineB_truncates (s : List Char)
    (h1 : '\n' ∉ s.take bufioBufSize) (h2 : bufioBufSize ≤ s.length)
    (h3 : ¬ (s.take bufioBufSize).getLast? = some '\r') :
    readLineB s = .ok (s.take bufioBufSize, s.drop bufioBufSize) := by
  unfold readLineB
  have hne : ¬ s = [] := by
    intro hs
    rw [hs] at h2
    simp [bufioBufSize] at h2
  rw [if_neg hne]
  have hge := le_takeWhile_length bufioBufSize s h2 h1
  have hc1 : ¬ ((s.takeWhile notNL).length < bufioBufSize ∧
      (s.takeWhile notNL).length < s.length) := by
    intro hcon
    omega
  rw [if_neg hc1]
  have hc2 : ¬ s.length < bufioBufSize := by omega
  rw [if_neg hc2, if_neg h3]

/-- C6 amended: the chunk-size bound takes effect only on the size line
as the 4096-byte `bufio` reader delivers it and on the value computed
with Go's wrapping 64-bit `int` arithmetic.  For every chunk whose size
line fits the reader buffer (shorter than 4096 bytes including its
`\r`; a longer line is truncated to the buffered prefix before parsing,
see `readLineB_truncates`) and whose stripped digits denote a value
below `2^63` — where no wraparound occurs — a value above 64 KiB fails
the read with `ErrChunkedEncodingInvalid` and yields no body data, and
any non-hex character in the size likewise fails the read; sizes of
`2^64` and beyond can wrap into the accepted range (see the
counterexample). -/
theorem chunk_size_validation :
    ∀ (line rest : List Char) (plen : Nat), '\n' ∉ line →
      line.length + 1 < bufioBufSize →
      ((∃ c ∈ line.takeWhile notSemi, isHexDigit c = false) →
        (chunkedRead (initChunked (line ++ '\r' :: '\n' :: rest)) plen).1 = [] ∧
        (chunkedRead (initChunked (line ++ '\r' :: '\n' :: rest)) plen).2.1
          = some (httpError ErrChunkedEncodingInvalid)) ∧
      (∀ v : Nat, hexValM (line.takeWhile notSemi) = some v → v < 2 ^ 63 →
        65536 < v →
        (chunkedRead (initChunked (line ++ '\r' :: '\n' :: rest)) plen).1 = [] ∧
        (chunkedRead (initChunked (line ++ '\r' :: '\n' :: rest)) plen).2.1
          = some (httpError ErrChunkedEncodingInvalid)) := by
  intro line rest plen hnl hbuf
  have hrl := readLineB_crlf line rest hnl hbuf
  constructor
  · intro hbad
    have hp : parseChunkSize line = .error (httpError ErrChunkedEncodingInvalid) :=
      parseChunkSizeLoop_err_of_bad _ 0 hbad
    simp [chunkedRead, initChunked, hrl, hp]
  · intro v hval hlt hgt
    have hp : parseChunkSize line = .ok (v : Int) := by
      unfold parseChunkSize
      exact_mod_cast parseChunkSizeLoop_eq_hexVal _ 0 v hval hlt
    have hvz : ¬ ((v : Int) = 0) := by
      intro hc
      omega
    have hvm : (v : Int) > MaxChunkSize := by
      unfold MaxChunkSize
      omega
    simp [chunkedRead, initChunked, hrl, hp, hvz, hvm]

/-- C6 witness: a non-hex size line and an in-range oversized size line
both fail the first read with `ErrChunkedEncodingInvalid` and produce no
data (`0xFFFF1 = 1048561 > 65536`). -/
theorem chunk_size_validation_witness :
    ((chunkedRead (initChunked ("xyz".toList ++ '\r' :: '\n' :: "Hello".toList)) 20).1
        = [] ∧
     (chunkedRead (initChunked ("xyz".toList ++ '\r' :: '\n' :: "Hello".toList)) 20).2.1
        = some (httpError ErrChunkedEncodingInvalid)) ∧
    ((chunkedRead (initChunked ("FFFF1".toList ++ '\r' :: '\n' :: "Hello".toList)) 20).1
        = [] ∧
     (chunkedRead (initChunked ("FFFF1".toList ++ '\r' :: '\n' :: "Hello".toList)) 20).2.1
        = some (httpError ErrChunkedEncodingInvalid)) :=
  ⟨(chunk_size_validation ("xyz".toList) ("Hello".toList) 20 (by decide)
        (by decide)).1
      ⟨'x', by decide, by decide⟩,
   (chunk_size_validation ("FFFF1".toList) ("Hello".toList) 20 (by decide)
        (by decide)).2
      1048561 (by decide) (by norm_num) (by norm_num)⟩

/-- C3 amended: `ParseRequest` validates nothing about the
`Content-Length` value — a missing, unparsable or non-positive value is
treated as `0` and parsing succeeds with an empty body (no 10 MiB bound
is enforced on this path); only when the parsed value is positive is the
body framed: `ErrUnexpectedEOF` unless the bytes after the header
terminator number exactly `Content-Length`, in which case the returned
body is exactly those bytes. -/
theorem parseRequest_content_length_framing :
    ∀ (data : List Char) (i : Nat) (firstLine : List Char)
      (restLines : List (List Char)) (m p v : List Char) (hs : Header),
      findTerminator data = some i →
      scanLines (data.take i) = firstLine :: restLines →
      parseRequestLine firstLine = .ok (m, p, v) →
      parseHeaders restLines = .ok hs →
      ((contentLengthOf hs ≤ 0 →
          parseRequest data = .ok ⟨m, p, v, hs, [], some []⟩) ∧
       (∀ (val : List Char) (vrest : List (List Char)),
          headerLookup hs headerContentLength = some (val :: vrest) →
          goParseInt64 val = none →
          parseRequest data = .ok ⟨m, p, v, hs, [], some []⟩) ∧
       (0 < contentLengthOf hs →
          (((data.drop (i + 4)).length : Int) ≠ contentLengthOf hs →
            parseRequest data = .error (httpError ErrUnexpectedEOF)) ∧
          (((data.drop (i + 4)).length : Int) = contentLengthOf hs →
            parseRequest data = .ok ⟨m, p, v, hs, data.drop (i + 4), some []⟩))) := by
  intro data i firstLine restLines m p v hs hfind hscan hline hhdrs
  have hunfold : parseRequest data
      = (if 0 < contentLengthOf hs then
           if ((data.drop (i + 4)).length : Int) ≠ contentLengthOf hs then
             .error (httpError ErrUnexpectedEOF)
           else .ok ⟨m, p, v, hs, data.drop (i + 4), some []⟩
         else .ok ⟨m, p, v, hs, [], some []⟩) := by
    unfold parseRequest
    rw [hfind]
    simp only [hscan, hline, hhdrs]
  refine ⟨?_, ?_, ?_⟩
  · intro hcl
    rw [hunfold, if_neg (by omega)]
  · intro val vrest hlook hparse
    have hcl : contentLengthOf hs = 0 := by
      simp [contentLengthOf, hlook, hparse]
    rw [hunfold, if_neg (by omega)]
  · intro hpos
    constructor
    · intro hne
      rw [hunfold, if_pos hpos, if_pos hne]
    · intro heq
      rw [hunfold, if_pos hpos, if_neg (by simpa using heq)]

/-- The concrete request used to witness the amended body framing. -/
def clThreeData : List Char :=
  ("GET / HTTP/1.1\r\nContent-Length: 3\r\n\r\nabc").toList

/-- C3 witness: the framing theorem evaluated at a request with
`Content-Length: 3` and exactly three body bytes, and at the same
request with a body byte missing. -/
theorem parseRequest_content_length_framing_witness :
    parseRequest clThreeData
      = .ok ⟨"GET".toList, "/".toList, "HTTP/1.1".toList,
          [(headerContentLength, ["3".toList])], "abc".toList, some []⟩ ∧
    parseRequest (("GET / HTTP/1.1\r\nContent-Length: 3\r\n\r\nab").toList)
      = .error (httpError ErrUnexpectedEOF) := by
  constructor
  · have h := (parseRequest_content_length_framing clThreeData 33
      ("GET / HTTP/1.1".toList) ["Content-Length: 3".toList]
      ("GET".toList) ("/".toList) ("HTTP/1.1".toList)
      [(headerContentLength, ["3".toList])]
      (by decide) (by decide) (by decide) (by decide)).2.2 (by decide)
    exact (h.2 (by decide)).trans (by decide)
  · have h := (parseRequest_content_length_framing
      (("GET / HTTP/1.1\r\nContent-Length: 3\r\n\r\nab").toList) 33
      ("GET / HTTP/1.1".toList) ["Content-Length: 3".toList]
      ("GET".toList) ("/".toList) ("HTTP/1.1".toList)
      [(headerContentLength, ["3".toList])]
      (by decide) (by decide) (by decide) (by decide)).2.2 (by decide)
    exact h.1 (by decide)

end TinyServer
